import Mathlib

/-!
Verification of the bmad-progress core: the checkbox/task parser, the
directory aggregation roll-ups, the structure detector, the git task-delta
calculator and the project state manager's refresh/current-story logic,
shallowly embedded from the TypeScript sources.

Strings are modelled as Lean `String`s (lists of characters); the
JavaScript regular expressions used by the source are translated into
explicit character-list matchers with the same backtracking semantics.
-/

namespace BmadProgress

/-! ### Character classes of the JavaScript regexes -/

/-- The character class of JavaScript's `\s` (whitespace, including line
terminators), as used by the source's regex patterns. -/
def jsWhitespace (c : Char) : Bool :=
  c == ' ' || c == '\t' || c == '\n' || c == '\r' || c == '\x0b' || c == '\x0c' ||
  c == '\u00a0' || c == '\u1680' || ('\u2000' ≤ c && c ≤ '\u200a') ||
  c == '\u2028' || c == '\u2029' || c == '\u202f' || c == '\u205f' ||
  c == '\u3000' || c == '\ufeff'

/-- JavaScript's `.` (without the `s` flag): any character except a line
terminator. -/
def jsDot (c : Char) : Bool :=
  !(c == '\n' || c == '\r' || c == '\u2028' || c == '\u2029')

/-- JavaScript's `String.prototype.trim`: strip `\s` characters from both
ends. -/
def jsTrim (l : List Char) : List Char :=
  ((l.dropWhile jsWhitespace).reverse.dropWhile jsWhitespace).reverse

/-! ### CHECKBOX_PATTERN = `/^(\s*)- \[([ xX])\] (.+)$/`

`matchCheckbox` returns the indent width (the length of the `\s*` capture),
whether the box is checked (`match[2].toLowerCase() === 'x'`), and the
raw text capture `match[3]`. -/

/-- The pattern's tail after the leading whitespace: `- \[([ xX])\] (.+)$`. -/
def matchCheckboxBody : List Char → Option (Bool × List Char)
  | '-' :: ' ' :: '[' :: m :: ']' :: ' ' :: rest =>
    if (m == ' ' || m == 'x' || m == 'X') && !rest.isEmpty && rest.all jsDot then
      some (m == 'x' || m == 'X', rest)
    else none
  | _ => none

/-- Full checkbox pattern: greedy `^(\s*)` (sound because the body starts
with `-`, which is not whitespace), then the body. -/
def matchCheckbox : List Char → Option (Nat × Bool × List Char)
  | [] => none
  | c :: rest =>
    if jsWhitespace c then
      (matchCheckbox rest).map (fun r => (r.1 + 1, r.2))
    else
      (matchCheckboxBody (c :: rest)).map (fun r => (0, r.1, r.2))

/-- `line.match(CHECKBOX_PATTERN)` on a whole line, packaged as
(indent, completed, text). -/
def parseCheckbox (line : String) : Option (Nat × Bool × String) :=
  (matchCheckbox line.data).map (fun r => (r.1, r.2.1, String.mk r.2.2))

/-- A run of leading whitespace adds exactly its length to the indent
capture and changes nothing else. -/
theorem matchCheckbox_replicate (n : Nat) (l : List Char) :
    matchCheckbox (List.replicate n ' ' ++ l) =
      (matchCheckbox l).map (fun r => (r.1 + n, r.2)) := by
  induction n with
  | zero =>
    cases h : matchCheckbox l <;> simp [h]
  | succ n ih =>
    have hstep : ∀ t, matchCheckbox (' ' :: t) =
        (matchCheckbox t).map (fun r => (r.1 + 1, r.2)) := by
      intro t
      simp only [matchCheckbox]
      rw [if_pos (show jsWhitespace ' ' = true by decide)]
    rw [List.replicate_succ, List.cons_append, hstep, ih]
    cases h : matchCheckbox l
    · rfl
    · simp only [Option.map_some', Option.some.injEq, Prod.mk.injEq, and_true, true_and]
      omega

/-- C3. Checkbox recognition: `- [ ] Task 1` under any indentation parses
as an incomplete task, `- [x] Task 2` and `- [X] Task 3` parse as completed
tasks, and the malformed variants (double space inside the brackets, missing
space after the hyphen, empty brackets with no inner space, no space before
the text) are not recognized as tasks at all. -/
theorem c3_checkbox_recognition :
    (∀ n : Nat,
      parseCheckbox (String.mk (List.replicate n ' ') ++ "- [ ] Task 1") =
        some (n, false, "Task 1")) ∧
    parseCheckbox "- [x] Task 2" = some (0, true, "Task 2") ∧
    parseCheckbox "- [X] Task 3" = some (0, true, "Task 3") ∧
    parseCheckbox "- [  ] x" = none ∧
    parseCheckbox "-[ ] x" = none ∧
    parseCheckbox "- []x" = none ∧
    parseCheckbox "- [ ]x" = none := by
  refine ⟨?_, by decide, by decide, by decide, by decide, by decide, by decide⟩
  intro n
  have hdata : (String.mk (List.replicate n ' ') ++ "- [ ] Task 1").data =
      List.replicate n ' ' ++ "- [ ] Task 1".data := by
    simp [String.data_append]
  rw [parseCheckbox, hdata, matchCheckbox_replicate]
  have : matchCheckbox "- [ ] Task 1".data = some (0, false, "Task 1".data) := by decide
  rw [this]
  simp

/-! ### Task trees: `parseTasksFromLines`, `countCompleted`, `countTotal`

The TypeScript builds the tree by mutation: each new task is appended to
the subtasks of the top of a stack of open ancestors (after popping every
frame whose indent is ≥ the new indent), or to the top-level list when the
stack empties.  The functional translation attaches a frame's finished
subtree to its parent (or the top-level accumulator) at pop time, which
yields the same tree. -/

inductive TaskItem where
  | mk (text : String) (completed : Bool) (line : Nat) (subtasks : List TaskItem)

def TaskItem.text : TaskItem → String
  | .mk t _ _ _ => t

def TaskItem.completed : TaskItem → Bool
  | .mk _ c _ _ => c

def TaskItem.line : TaskItem → Nat
  | .mk _ _ n _ => n

def TaskItem.subtasks : TaskItem → List TaskItem
  | .mk _ _ _ s => s

/-- An open stack entry: `{ indent, task }` plus the subtasks collected so
far (in reverse order of arrival). -/
structure Frame where
  indent : Nat
  text : String
  completed : Bool
  line : Nat
  childrenRev : List TaskItem

def closeFrame (f : Frame) : TaskItem :=
  .mk f.text f.completed f.line f.childrenRev.reverse

/-- The pop loop on a non-empty stack `g :: rest`: each popped frame's
finished subtree goes to the next frame down, or to the top-level
accumulator (reversed) when none remains. -/
def popGEAux (ind : Nat) (acc : List TaskItem) : Frame → List Frame → List TaskItem × List Frame
  | g, [] => if ind ≤ g.indent then (closeFrame g :: acc, []) else (acc, [g])
  | g, h :: hs =>
    if ind ≤ g.indent then
      popGEAux ind acc { h with childrenRev := closeFrame g :: h.childrenRev } hs
    else (acc, g :: h :: hs)

/-- `while (stack.length > 0 && stack[stack.length - 1].indent >= indent)
stack.pop()`. -/
def popGE (ind : Nat) (acc : List TaskItem) : List Frame → List TaskItem × List Frame
  | [] => (acc, [])
  | g :: gs => popGEAux ind acc g gs

/-- The parse loop over the lines, carrying the 0-based line counter `i`,
the reversed top-level list and the stack. -/
def runLines : List String → Nat → List TaskItem → List Frame → List TaskItem × List Frame
  | [], _, acc, stack => (acc, stack)
  | l :: ls, i, acc, stack =>
    match matchCheckbox l.data with
    | none => runLines ls (i + 1) acc stack
    | some (ind, comp, text) =>
      let p := popGE ind acc stack
      runLines ls (i + 1) p.1 (⟨ind, String.mk (jsTrim text), comp, i + 1, []⟩ :: p.2)

/-- `parseTasksFromLines(lines)`. -/
def parseTasksFromLines (lines : List String) : List TaskItem :=
  let r := runLines lines 0 [] []
  (popGE 0 r.1 r.2).1.reverse

/-- `countCompleted(tasks)`: completed nodes, recursively over the tree. -/
def countCompleted : List TaskItem → Nat
  | [] => 0
  | .mk _ c _ sub :: ts => (if c then 1 else 0) + countCompleted sub + countCompleted ts

/-- `countTotal(tasks)`: all nodes, recursively over the tree. -/
def countTotal : List TaskItem → Nat
  | [] => 0
  | .mk _ _ _ sub :: ts => 1 + countTotal sub + countTotal ts

/-- C4. Nesting by indentation: for the input `- [ ] A`, `  - [ ] B`,
`  - [x] C`, `- [x] D` with any consistent indent step of 2 or more spaces,
A has exactly the two children B and C, and D is a top-level sibling of A
with zero children. -/
theorem c4_nesting_by_indentation (k : Nat) (hk : 2 ≤ k) :
    parseTasksFromLines
      ["- [ ] A",
       String.mk (List.replicate k ' ') ++ "- [ ] B",
       String.mk (List.replicate k ' ') ++ "- [x] C",
       "- [x] D"] =
      [.mk "A" false 1 [.mk "B" false 2 [], .mk "C" true 3 []],
       .mk "D" true 4 []] := by
  have hk0 : ¬ (k ≤ 0) := by omega
  have hA : matchCheckbox "- [ ] A".data = some (0, false, "A".data) := by decide
  have hD : matchCheckbox "- [x] D".data = some (0, true, "D".data) := by decide
  have hB : matchCheckbox (String.mk (List.replicate k ' ') ++ "- [ ] B").data =
      some (k, false, "B".data) := by
    rw [String.data_append]
    rw [matchCheckbox_replicate]
    rw [show matchCheckbox "- [ ] B".data = some (0, false, "B".data) by decide]
    simp
  have hC : matchCheckbox (String.mk (List.replicate k ' ') ++ "- [x] C").data =
      some (k, true, "C".data) := by
    rw [String.data_append]
    rw [matchCheckbox_replicate]
    rw [show matchCheckbox "- [x] C".data = some (0, true, "C".data) by decide]
    simp
  have tA : String.mk (jsTrim "A".data) = "A" := by decide
  have tB : String.mk (jsTrim "B".data) = "B" := by decide
  have tC : String.mk (jsTrim "C".data) = "C" := by decide
  have tD : String.mk (jsTrim "D".data) = "D" := by decide
  simp only [parseTasksFromLines, runLines, hA, hB, hC, hD, tA, tB, tC, tD,
    popGE, popGEAux, hk0, le_refl, Nat.zero_le, if_true, if_false,
    ite_true, ite_false, closeFrame, List.reverse_nil, List.reverse_cons,
    List.nil_append, List.cons_append]

/-- C4 witness: the nesting property at the concrete indent step 2. -/
theorem c4_nesting_by_indentation_witness :
    parseTasksFromLines
      ["- [ ] A",
       String.mk (List.replicate 2 ' ') ++ "- [ ] B",
       String.mk (List.replicate 2 ' ') ++ "- [x] C",
       "- [x] D"] =
      [.mk "A" false 1 [.mk "B" false 2 [], .mk "C" true 3 []],
       .mk "D" true 4 []] :=
  c4_nesting_by_indentation 2 (by decide)

theorem countTotal_append (a b : List TaskItem) :
    countTotal (a ++ b) = countTotal a + countTotal b := by
  induction a with
  | nil => simp [countTotal]
  | cons t ts ih =>
    cases t with
    | mk tx c l sub =>
      simp only [List.cons_append, countTotal, ih]
      omega

theorem countTotal_reverse (l : List TaskItem) :
    countTotal l.reverse = countTotal l := by
  induction l with
  | nil => rfl
  | cons t ts ih =>
    cases t with
    | mk tx c l sub =>
      simp only [List.reverse_cons, countTotal_append, ih, countTotal]
      omega

/-- Nodes held by the open stack: one per frame plus its collected
subtrees. -/
def stackTotal : List Frame → Nat
  | [] => 0
  | f :: fs => 1 + countTotal f.childrenRev + stackTotal fs

theorem popGEAux_total (ind : Nat) :
    ∀ (hs : List Frame) (g : Frame) (acc : List TaskItem),
      countTotal (popGEAux ind acc g hs).1 + stackTotal (popGEAux ind acc g hs).2 =
        countTotal acc + (1 + countTotal g.childrenRev) + stackTotal hs := by
  intro hs
  induction hs with
  | nil =>
    intro g acc
    by_cases h : ind ≤ g.indent
    · simp only [popGEAux, if_pos h, countTotal, closeFrame, stackTotal, countTotal_reverse]
      omega
    · simp only [popGEAux, if_neg h, stackTotal]
      omega
  | cons h hs ih =>
    intro g acc
    by_cases hle : ind ≤ g.indent
    · rw [popGEAux, if_pos hle, ih]
      simp only [countTotal, closeFrame, countTotal_reverse, stackTotal]
      omega
    · rw [popGEAux, if_neg hle]
      simp only [stackTotal]
      omega

theorem popGE_total (ind : Nat) (acc : List TaskItem) (stack : List Frame) :
    countTotal (popGE ind acc stack).1 + stackTotal (popGE ind acc stack).2 =
      countTotal acc + stackTotal stack := by
  cases stack with
  | nil => simp [popGE, stackTotal]
  | cons g gs =>
    rw [popGE, popGEAux_total]
    simp only [stackTotal]
    omega

/-- The flush at indent 0 empties the stack. -/
theorem popGE_zero_stack (acc : List TaskItem) (stack : List Frame) :
    (popGE 0 acc stack).2 = [] := by
  cases stack with
  | nil => rfl
  | cons g gs =>
    rw [popGE]
    induction gs generalizing g acc with
    | nil => simp [popGEAux]
    | cons h hs ih => rw [popGEAux, if_pos (Nat.zero_le _)]; exact ih _ _

/-- Lines whose text matches the checkbox pattern. -/
def numMatched (lines : List String) : Nat :=
  (lines.filter (fun l => (parseCheckbox l).isSome)).length

theorem runLines_total :
    ∀ (ls : List String) (i : Nat) (acc : List TaskItem) (stack : List Frame),
      countTotal (runLines ls i acc stack).1 + stackTotal (runLines ls i acc stack).2 =
        countTotal acc + stackTotal stack + numMatched ls := by
  intro ls
  induction ls with
  | nil => intro i acc stack; simp [runLines, numMatched]
  | cons l ls ih =>
    intro i acc stack
    rw [runLines]
    cases h : matchCheckbox l.data with
    | none =>
      rw [ih]
      have : numMatched (l :: ls) = numMatched ls := by
        simp [numMatched, List.filter, parseCheckbox, h]
      omega
    | some r =>
      obtain ⟨ind, comp, text⟩ := r
      have hm : numMatched (l :: ls) = numMatched ls + 1 := by
        simp [numMatched, List.filter, parseCheckbox, h]
      rw [ih]
      simp only [stackTotal, countTotal, hm]
      have := popGE_total ind acc stack
      omega

theorem countCompleted_le_countTotal (ts : List TaskItem) :
    countCompleted ts ≤ countTotal ts := by
  have H : ∀ (n : Nat) (ts : List TaskItem), sizeOf ts ≤ n →
      countCompleted ts ≤ countTotal ts := by
    intro n
    induction n with
    | zero =>
      intro ts h
      cases ts with
      | nil => simp [countCompleted, countTotal]
      | cons t ts => simp at h
    | succ n ih =>
      intro ts h
      cases ts with
      | nil => simp [countCompleted, countTotal]
      | cons t ts =>
        cases t with
        | mk tx c l sub =>
          simp only [countCompleted, countTotal]
          have h1 : sizeOf sub ≤ n := by
            simp only [List.cons.sizeOf_spec, TaskItem.mk.sizeOf_spec] at h
            omega
          have h2 : sizeOf ts ≤ n := by
            simp only [List.cons.sizeOf_spec, TaskItem.mk.sizeOf_spec] at h
            omega
          have := ih sub h1
          have := ih ts h2
          by_cases hc : c = true <;> simp [hc] <;> omega
  exact H (sizeOf ts) ts le_rfl

/-- C6. Count invariant: for every parsed task tree, completedCount is at
most totalCount, and totalCount equals the number of input lines that
matched the checkbox pattern (every node counted exactly once regardless of
nesting depth). -/
theorem c6_count_invariant (lines : List String) :
    countCompleted (parseTasksFromLines lines) ≤ countTotal (parseTasksFromLines lines) ∧
    countTotal (parseTasksFromLines lines) = numMatched lines := by
  constructor
  · exact countCompleted_le_countTotal _
  · rw [parseTasksFromLines]
    have hrun := runLines_total lines 0 [] []
    have hflush := popGE_total 0 (runLines lines 0 [] []).1 (runLines lines 0 [] []).2
    have hz := popGE_zero_stack (runLines lines 0 [] []).1 (runLines lines 0 [] []).2
    rw [hz] at hflush
    simp only [stackTotal, countTotal] at hrun hflush
    rw [countTotal_reverse]
    omega

/-! ### Percentage: `Math.round((completedCount / totalCount) * 100)` with
a zero guard, shared by `parseStoryFile`, `createEpicData` and `refresh`.

The JavaScript arithmetic is IEEE-754 binary64: the division rounds
`completed / total` to nearest (ties to even) at 53 significant bits, the
multiplication by 100 rounds the product the same way, and `Math.round`
returns the integer nearest to the resulting double's exact value, ties
towards `+inf`.  The model below computes those doubles exactly as dyadic
numbers `sig * 2 ^ exp` over the integers; it covers the normal range
(no overflow or subnormal handling, which would need a ratio outside
`[2^-1022, 2^1024)`). -/

/-- A nonnegative binary64 value, exactly: `sig * 2 ^ exp`. -/
structure Dyadic where
  sig : Nat
  exp : Int
deriving Repr, DecidableEq

/-- Largest `k` reachable from the start value with `t * 2 ^ (k + 1) ≤ c`,
with enough fuel to exhaust the search (each step needs `2 ^ k ≤ c`, so
`c` steps always suffice). -/
def upSearch : Nat → Nat → Nat → Nat → Nat
  | 0, _, _, k => k
  | fuel + 1, c, t, k => if t * 2 ^ (k + 1) ≤ c then upSearch fuel c t (k + 1) else k

/-- Smallest `j ≥ 1` with `t ≤ c * 2 ^ j` (fuel as above: `t` steps
suffice since `j ≤ log2 t + 1`). -/
def downSearch : Nat → Nat → Nat → Nat → Nat
  | 0, _, _, j => j
  | fuel + 1, c, t, j => if t ≤ c * 2 ^ j then j else downSearch fuel c t (j + 1)

/-- `⌊log2 (c / t)⌋` for `c, t ≥ 1`: the unique `E` with
`t * 2 ^ E ≤ c < t * 2 ^ (E + 1)`. -/
def floorLog2Rat (c t : Nat) : Int :=
  if t ≤ c then (upSearch c c t 0 : Int) else -(downSearch t c t 1 : Int)

/-- Round `a / b` to the nearest integer, ties to even — the IEEE-754
default rounding of a quotient whose scaled value is `a / b`. -/
def roundTiesEvenDiv (a b : Nat) : Nat :=
  let q := a / b
  let r := a % b
  if 2 * r < b then q
  else if b < 2 * r then q + 1
  else if q % 2 = 0 then q else q + 1

/-- The binary64 quotient `c / t` (for `t ≥ 1`): significand
`RNE(c * 2 ^ (52 - E) / t)` at exponent `E - 52`. -/
def divD (c t : Nat) : Dyadic :=
  if c = 0 then ⟨0, 0⟩
  else
    let E := floorLog2Rat c t
    let m :=
      if E ≤ 52 then roundTiesEvenDiv (c * 2 ^ (52 - E).toNat) t
      else roundTiesEvenDiv c (t * 2 ^ (E - 52).toNat)
    ⟨m, E - 52⟩

/-- The binary64 product `d * 100` (100 is exact): re-round the integer
significand `sig * 100` to 53 bits. -/
def mul100D (d : Dyadic) : Dyadic :=
  if d.sig = 0 then ⟨0, 0⟩
  else
    let n := d.sig * 100
    let bigL := upSearch n n 1 0
    if bigL ≤ 52 then ⟨n, d.exp⟩
    else ⟨roundTiesEvenDiv n (2 ^ (bigL - 52)), d.exp + (bigL - 52)⟩

/-- `Math.round` on the double's exact value: the nearest integer, ties
towards `+inf`, i.e. `⌊sig * 2 ^ exp + 1 / 2⌋` for a nonnegative value. -/
def mathRoundD (d : Dyadic) : Nat :=
  if 0 ≤ d.exp then d.sig * 2 ^ d.exp.toNat
  else (2 * d.sig + 2 ^ (-d.exp).toNat) / 2 ^ ((-d.exp).toNat + 1)

/-- `totalCount > 0 ? Math.round((completedCount / totalCount) * 100) : 0`,
in binary64 arithmetic. -/
def percentage (completed total : Nat) : Nat :=
  if 0 < total then mathRoundD (mul100D (divD completed total)) else 0

/-- The claim's formula: exact rational rounding of
`100 * completed / total`, half up, as the integer closed form
`(200 * completed + total) / (2 * total)`.  Stated from the spec's words,
for comparison with the program's `percentage`. -/
def specRoundPercentage (completed total : Nat) : Nat :=
  if 0 < total then (200 * completed + total) / (2 * total) else 0

/-- C5 counterexample: at completed = 23, total = 40 the program computes
`(23 / 40) * 100 = 57.49999999999999` in binary64 and `Math.round` returns
57, while the exact rounding of `100 * 23 / 40 = 57.5` is 58. -/
theorem c5_percentage_counterexample :
    percentage 23 40 = 57 ∧ specRoundPercentage 23 40 = 58 ∧
    percentage 23 40 ≠ specRoundPercentage 23 40 := by
  refine ⟨by decide, by decide, by decide⟩

/-- C5 amended. Percentage formula: the computed percentage is
`Math.round((completed / total) * 100)` evaluated in IEEE-754 binary64
arithmetic when `total > 0` — which can land one below the exact rational
rounding of `100 * completed / total`, e.g. (23,40) gives 57 where exact
rounding gives 58 — and exactly 0 when `total = 0` or `completed = 0`; the
cited pairs (0,0) gives 0, (1,3) gives 33, (2,3) gives 67 and (1,7) gives
14 hold in binary64 exactly as in exact rounding. -/
theorem c5_percentage_formula :
    (∀ c t : Nat, ¬ 0 < t → percentage c t = 0) ∧
    (∀ t : Nat, percentage 0 t = 0) ∧
    percentage 0 0 = 0 ∧ percentage 1 3 = 33 ∧ percentage 2 3 = 67 ∧
    percentage 1 7 = 14 ∧ percentage 23 40 = 57 := by
  refine ⟨?_, ?_, by decide, by decide, by decide, by decide, by decide⟩
  · intro c t h
    rw [percentage, if_neg h]
  · intro t
    by_cases h : 0 < t
    · rw [percentage, if_pos h]
      rfl
    · rw [percentage, if_neg h]

/-! ### Git delta: `getTasksSinceCommit` / `getFileTaskDelta`

`countCompletedTasks` is the global regex count of the literals `- [x]` and
`- [X]`: a scan counting non-overlapping occurrences, resuming after each
match. -/

def countCompletedTasks : List Char → Nat
  | '-' :: ' ' :: '[' :: 'x' :: ']' :: rest2 => 1 + countCompletedTasks rest2
  | '-' :: ' ' :: '[' :: 'X' :: ']' :: rest2 => 1 + countCompletedTasks rest2
  | _ :: rest => countCompletedTasks rest
  | [] => 0

def countCompletedStr (s : String) : Nat := countCompletedTasks s.data

/-- One story file as the delta calculator sees it: its current content and
the content of the same path at `HEAD` (`none` when `git show` fails). -/
structure GitFile where
  current : String
  committed : Option String
deriving Repr, DecidableEq

/-- `getFileTaskDelta`: a file with no retrievable committed version (or an
empty one, which is falsy in JavaScript) contributes its full current
completed count; otherwise `current − committed`, unclamped. -/
def getFileTaskDelta (f : GitFile) : Int :=
  match f.committed with
  | none => countCompletedStr f.current
  | some committedText =>
    if committedText == "" then (countCompletedStr f.current : Int)
    else (countCompletedStr f.current : Int) - countCompletedStr committedText

/-- `getTasksSinceCommit`: the running sum over all files, clamped at zero
only at the end. -/
def getTasksSinceCommit (files : List GitFile) : Int :=
  max 0 (files.foldl (fun acc f => acc + getFileTaskDelta f) 0)

theorem foldl_add_delta (files : List GitFile) :
    ∀ i : Int, files.foldl (fun acc f => acc + getFileTaskDelta f) i =
      i + (files.map getFileTaskDelta).sum := by
  induction files with
  | nil => intro i; simp
  | cons f fs ih =>
    intro i
    simp only [List.foldl_cons, List.map_cons, List.sum_cons, ih]
    ring

/-- C2. Git delta: the tasks-since-commit result is the sum over all files
of the per-file delta (current completed count minus committed completed
count, the full current count when no committed version is retrievable),
clamped at zero only as a grand total — individual contributions are not
clamped — so the result is always nonnegative. -/
theorem c2_git_delta (files : List GitFile) :
    getTasksSinceCommit files = max 0 ((files.map getFileTaskDelta).sum) ∧
    0 ≤ getTasksSinceCommit files ∧
    (∀ f : GitFile, f.committed = none →
      getFileTaskDelta f = countCompletedStr f.current) := by
  refine ⟨?_, le_max_left _ _, ?_⟩
  · rw [getTasksSinceCommit, foldl_add_delta]
    simp
  · intro f h
    rw [getFileTaskDelta, h]

/-! ### Story and epic data, and `findCurrentStory`

Only the fields the selection logic and the refresh snapshot read are
modelled; timestamps are milliseconds since the epoch (`new Date(0)` is 0).
-/

structure StoryData where
  filePath : String
  storyId : String
  title : String
  completedCount : Nat
  totalCount : Nat
  percentage : Nat
  taskStatus : String
  bmadStatus : String
  lastModified : Nat
deriving Repr, DecidableEq

structure EpicData where
  id : String
  stories : List StoryData
  completedCount : Nat
  totalCount : Nat
  percentage : Nat
  bmadStatus : String
deriving Repr, DecidableEq

/-- `epic.bmadStatus === 'cancelled' || epic.bmadStatus === 'deprecated'`. -/
def epicSkipped (e : EpicData) : Bool :=
  e.bmadStatus == "cancelled" || e.bmadStatus == "deprecated"

/-- The first pass's inner loops: scan epics in order, skip cancelled and
deprecated ones, return the first story whose workflow status matches. -/
def findStoryWithStatus (status : String) : List EpicData → Option StoryData
  | [] => none
  | e :: es =>
    if epicSkipped e then findStoryWithStatus status es
    else
      match e.stories.find? (fun s => s.bmadStatus == status) with
      | some s => some s
      | none => findStoryWithStatus status es

/-- The first pass over the priority list. -/
def findPriority : List String → List EpicData → Option StoryData
  | [], _ => none
  | st :: sts, epics =>
    match findStoryWithStatus st epics with
    | some s => some s
    | none => findPriority sts epics

/-- The fallback loop over one epic's stories, carrying the current best
and the latest timestamp (initially `new Date(0)`). -/
def inProgressFile (s : StoryData) : Bool := s.taskStatus == "in-progress"

def fallbackLoop : List StoryData → Option StoryData → Nat → Option StoryData × Nat
  | [], cur, latest => (cur, latest)
  | s :: ss, cur, latest =>
    if inProgressFile s && latest < s.lastModified then
      fallbackLoop ss (some s) s.lastModified
    else fallbackLoop ss cur latest

/-- The fallback pass over all epics, skipping cancelled/deprecated ones. -/
def fallbackEpics : List EpicData → Option StoryData → Nat → Option StoryData × Nat
  | [], cur, latest => (cur, latest)
  | e :: es, cur, latest =>
    if epicSkipped e then fallbackEpics es cur latest
    else
      let p := fallbackLoop e.stories cur latest
      fallbackEpics es p.1 p.2

/-- `findCurrentStory(epics)`: the priority pass over
`['review', 'in-progress', 'ready-for-dev']`, then the latest-modified
fallback pass. -/
def findCurrentStory (epics : List EpicData) : Option StoryData :=
  match findPriority ["review", "in-progress", "ready-for-dev"] epics with
  | some s => some s
  | none => (fallbackEpics epics none 0).1

/-! #### The claim's formulation, and the amended one -/

/-- The stories of the non-cancelled/deprecated epics, in encounter order. -/
def activeStories (epics : List EpicData) : List StoryData :=
  ((epics.filter (fun e => !epicSkipped e)).map (fun e => e.stories)).flatten

/-- C1 exactly as claimed: first story matching each priority status in
turn; otherwise the first file-derived in-progress story achieving the
maximum modification timestamp; otherwise none. -/
def findCurrentStorySpec (epics : List EpicData) : Option StoryData :=
  let act := activeStories epics
  match ["review", "in-progress", "ready-for-dev"].findSome?
      (fun st => act.find? (fun s => s.bmadStatus == st)) with
  | some s => some s
  | none =>
    let ip := act.filter inProgressFile
    let m := (ip.map (fun s => s.lastModified)).foldr max 0
    ip.find? (fun s => s.lastModified == m)

/-- C1 amended: as the claim, except that a fallback story must also have a
modification timestamp strictly later than the epoch (timestamp 0); if
every file-derived in-progress story has timestamp 0, the result is none.
-/
def findCurrentStoryAmended (epics : List EpicData) : Option StoryData :=
  let act := activeStories epics
  match ["review", "in-progress", "ready-for-dev"].findSome?
      (fun st => act.find? (fun s => s.bmadStatus == st)) with
  | some s => some s
  | none =>
    let ip := act.filter inProgressFile
    let m := (ip.map (fun s => s.lastModified)).foldr max 0
    if m = 0 then none else ip.find? (fun s => s.lastModified == m)

theorem activeStories_cons (e : EpicData) (es : List EpicData) :
    activeStories (e :: es) =
      if epicSkipped e then activeStories es else e.stories ++ activeStories es := by
  by_cases h : epicSkipped e <;> simp [activeStories, List.filter_cons, h]

theorem findStoryWithStatus_eq (st : String) (epics : List EpicData) :
    findStoryWithStatus st epics =
      (activeStories epics).find? (fun s => s.bmadStatus == st) := by
  induction epics with
  | nil => simp [findStoryWithStatus, activeStories]
  | cons e es ih =>
    rw [activeStories_cons]
    by_cases h : epicSkipped e
    · rw [if_pos h, findStoryWithStatus, if_pos h, ih]
    · rw [if_neg h, findStoryWithStatus, if_neg h, List.find?_append, ih]
      cases e.stories.find? (fun s => s.bmadStatus == st) <;> simp

theorem findPriority_eq (sts : List String) (epics : List EpicData) :
    findPriority sts epics =
      sts.findSome? (fun st => (activeStories epics).find? (fun s => s.bmadStatus == st)) := by
  induction sts with
  | nil => rfl
  | cons st sts ih =>
    rw [findPriority, List.findSome?_cons, findStoryWithStatus_eq, ih]
    cases List.find? (fun s => s.bmadStatus == st) (activeStories epics) <;> rfl

theorem fallbackLoop_append (a b : List StoryData) :
    ∀ (cur : Option StoryData) (latest : Nat),
      fallbackLoop (a ++ b) cur latest =
        fallbackLoop b (fallbackLoop a cur latest).1 (fallbackLoop a cur latest).2 := by
  induction a with
  | nil => intro cur latest; rfl
  | cons s ss ih =>
    intro cur latest
    rw [List.cons_append, fallbackLoop, fallbackLoop]
    by_cases h : (inProgressFile s && latest < s.lastModified) = true
    · rw [if_pos h, if_pos h, ih]
    · rw [if_neg h, if_neg h, ih]

theorem fallbackEpics_eq (es : List EpicData) :
    ∀ (cur : Option StoryData) (latest : Nat),
      fallbackEpics es cur latest = fallbackLoop (activeStories es) cur latest := by
  induction es with
  | nil => intro cur latest; rfl
  | cons e es ih =>
    intro cur latest
    rw [activeStories_cons, fallbackEpics]
    by_cases h : epicSkipped e
    · rw [if_pos h, if_pos h, ih]
    · rw [if_neg h, if_neg h, fallbackLoop_append, ih]

/-- The running maximum the fallback loop's `latestModified` reaches over a
story list. -/
def maxTS (L : List StoryData) (latest : Nat) : Nat :=
  L.foldl (fun acc s => if inProgressFile s then max acc s.lastModified else acc) latest

theorem maxTS_nil (latest : Nat) : maxTS [] latest = latest := rfl

theorem maxTS_cons (s : StoryData) (L : List StoryData) (latest : Nat) :
    maxTS (s :: L) latest =
      maxTS L (if inProgressFile s then max latest s.lastModified else latest) := by
  by_cases h : inProgressFile s <;> simp [maxTS, List.foldl_cons, h]

theorem le_maxTS (L : List StoryData) : ∀ latest : Nat, latest ≤ maxTS L latest := by
  induction L with
  | nil => intro latest; simp [maxTS_nil]
  | cons s L ih =>
    intro latest
    rw [maxTS_cons]
    refine le_trans ?_ (ih _)
    by_cases h : inProgressFile s <;> simp [h]

theorem fallbackLoop_spec (L : List StoryData) :
    ∀ (cur : Option StoryData) (latest : Nat),
      fallbackLoop L cur latest =
        if maxTS L latest = latest then (cur, latest)
        else ((L.filter inProgressFile).find?
                (fun s => s.lastModified == maxTS L latest),
              maxTS L latest) := by
  induction L with
  | nil => intro cur latest; simp [maxTS_nil, fallbackLoop]
  | cons s L ih =>
    intro cur latest
    rw [fallbackLoop, maxTS_cons, List.filter_cons]
    by_cases hip : inProgressFile s
    · rw [if_pos hip, if_pos hip]
      by_cases hlt : latest < s.lastModified
      · rw [if_pos (by simp [hip, hlt]), ih]
        have hmax : max latest s.lastModified = s.lastModified := by omega
        rw [hmax]
        have hge := le_maxTS L s.lastModified
        by_cases heq : maxTS L s.lastModified = s.lastModified
        · rw [if_pos heq, if_neg (by omega), heq,
            List.find?_cons_of_pos _ (by simp)]
        · rw [if_neg heq, if_neg (by omega),
            List.find?_cons_of_neg _ (by simp only [beq_iff_eq]; omega)]
      · rw [if_neg (by simp [hip, hlt]), ih]
        have hmax : max latest s.lastModified = latest := by omega
        rw [hmax]
        have hge := le_maxTS L latest
        by_cases heq : maxTS L latest = latest
        · rw [if_pos heq, if_pos heq]
        · rw [if_neg heq, if_neg heq,
            List.find?_cons_of_neg _ (by simp only [beq_iff_eq]; omega)]
    · rw [if_neg hip, if_neg hip, if_neg (by simp [hip]), ih]

theorem maxTS_eq_foldr (L : List StoryData) :
    ∀ t : Nat, maxTS L t = max t (((L.filter inProgressFile).map
      (fun s => s.lastModified)).foldr max 0) := by
  induction L with
  | nil => intro t; simp [maxTS_nil]
  | cons s L ih =>
    intro t
    rw [maxTS_cons, List.filter_cons]
    by_cases h : inProgressFile s
    · rw [if_pos h, if_pos (by simp [h]), List.map_cons, List.foldr_cons, ih]
      omega
    · rw [if_neg h, if_neg (by simp [h]), ih]

/-- C1 amended. Current-story selection: the priority pass is exactly as
claimed; the fallback pass returns the first file-derived in-progress story
(among non-cancelled/deprecated epics) achieving the maximum modification
timestamp, provided that maximum is strictly later than the epoch
(timestamp 0) — a story stamped exactly at the epoch is never selected,
because the source compares with strict `>` against a `new Date(0)`
baseline; otherwise the result is none. -/
theorem c1_current_story_selection (epics : List EpicData) :
    findCurrentStory epics = findCurrentStoryAmended epics := by
  rw [findCurrentStory, findCurrentStoryAmended, findPriority_eq]
  cases hp : (["review", "in-progress", "ready-for-dev"].findSome?
      (fun st => (activeStories epics).find? (fun s => s.bmadStatus == st))) with
  | some s => rfl
  | none =>
    simp only [fallbackEpics_eq, fallbackLoop_spec]
    have hm := maxTS_eq_foldr (activeStories epics) 0
    rw [Nat.zero_max] at hm
    rw [hm]
    by_cases h : (((activeStories epics).filter inProgressFile).map
        (fun s => s.lastModified)).foldr max 0 = 0
    · simp [h]
    · simp [h]

/-- C1 counterexample input: a single non-cancelled epic holding one story
with file-derived in-progress status and modification timestamp 0 (the
epoch), and no story carrying a priority workflow status. -/
def epochStory : StoryData :=
  ⟨"/ws/docs/stories/1-1-a.md", "1.1", "A", 1, 2, 50, "in-progress", "backlog", 0⟩

def epochEpic : EpicData := ⟨"1", [epochStory], 1, 2, 50, "backlog"⟩

/-- C1 counterexample: on this input the claim's selection rule picks the
in-progress story (it has the latest timestamp among in-progress stories),
but the source returns null. -/
theorem c1_current_story_counterexample :
    findCurrentStory [epochEpic] = none ∧
    findCurrentStorySpec [epochEpic] = some epochStory := by
  constructor <;> rfl

/-! ### Structure detection: `detectBmadStructure`

The filesystem is abstracted as an existence predicate on paths; `path.join`
is POSIX concatenation with `/`, and `path.isAbsolute` is a leading `/`. -/

inductive BmadVersion where
  | v6 | v4 | quickflow | unknown
deriving Repr, DecidableEq

structure DetectionResult where
  version : BmadVersion
  storiesPath : String
  configPath : Option String := none
  epicsPath : Option String := none
deriving Repr, DecidableEq

def pjoin (a b : String) : String := a ++ "/" ++ b

/-- `path.isAbsolute` in the POSIX model: a leading `/`. -/
def isAbsolutePath (o : String) : Bool :=
  match o.data with
  | '/' :: _ => true
  | _ => false

/-- `findStoriesPath(workspaceRoot, version)`: first existing candidate, or
the first candidate when none exists. -/
def findStoriesPath (fs : String → Bool) (root : String) (version : BmadVersion) : String :=
  let possiblePaths :=
    if version = BmadVersion.v6 then
      [pjoin (pjoin root "_bmad-output") "implementation-artifacts",
       pjoin (pjoin root "_bmad-output") "stories",
       pjoin (pjoin root "docs") "sprint-artifacts",
       pjoin (pjoin root "docs") "stories"]
    else
      [pjoin (pjoin root "docs") "stories",
       pjoin root "stories",
       pjoin (pjoin root "_bmad-output") "implementation-artifacts",
       pjoin (pjoin root "_bmad-output") "stories"]
  match possiblePaths.find? fs with
  | some p => p
  | none => possiblePaths.headD ""

/-- `findEpicsPath(workspaceRoot)`: first existing candidate, or the first
candidate. -/
def findEpicsPath (fs : String → Bool) (root : String) : String :=
  let possiblePaths :=
    [pjoin (pjoin root "_bmad-output") "project-planning-artifacts",
     pjoin root "_bmad-output",
     pjoin (pjoin root "docs") "sprint-artifacts",
     pjoin (pjoin root "docs") "epics"]
  match possiblePaths.find? fs with
  | some p => p
  | none => possiblePaths.headD ""

/-- `detectBmadStructure(workspaceRoot, settingsOverride?)`. -/
def detectBmadStructure (fs : String → Bool) (root : String) (override : Option String) :
    DetectionResult :=
  let overrideHit : Option String :=
    match override with
    | none => none
    | some o =>
      if jsTrim o.data ≠ [] then
        let p := if isAbsolutePath o then o else pjoin root o
        if fs p then some p else none
      else none
  match overrideHit with
  | some p => { version := .quickflow, storiesPath := p }
  | none =>
    match [pjoin (pjoin root ".bmad") "bmm", pjoin (pjoin root "_bmad") "bmm"].find? fs with
    | some v6Path =>
      { version := .v6,
        storiesPath := findStoriesPath fs root .v6,
        configPath := some (pjoin v6Path "config.yaml"),
        epicsPath := some (findEpicsPath fs root) }
    | none =>
      if fs (pjoin (pjoin root "_bmad-output") "stories") then
        { version := .v6,
          storiesPath := pjoin (pjoin root "_bmad-output") "stories",
          epicsPath := some (pjoin root "_bmad-output") }
      else if fs (pjoin root ".bmad-core") then
        { version := .v4,
          storiesPath := findStoriesPath fs root .v4,
          configPath := some (pjoin (pjoin root ".bmad-core") "config.yaml") }
      else if fs (pjoin (pjoin root "docs") "stories") then
        { version := .quickflow, storiesPath := pjoin (pjoin root "docs") "stories" }
      else
        match [pjoin root "stories",
               pjoin (pjoin root "docs") "sprint-artifacts",
               pjoin (pjoin root "_bmad-output") "stories"].find? fs with
        | some altPath => { version := .quickflow, storiesPath := altPath }
        | none => { version := .unknown, storiesPath := "" }

/-- C7. Detection priority: an explicit override path that exists wins
outright and is reported as quickflow; with no override, a workspace with a
newer-convention marker (`.bmad/bmm` or `_bmad/bmm`, either spelling) and
the legacy marker `.bmad-core` resolves to v6; and any workspace — whatever
other files it contains — in which none of the probed marker or fallback
stories paths exists (and no override path resolves) yields the unknown
version with an empty stories path. -/
theorem c7_detection_priority (fs : String → Bool) (root : String) :
    (∀ o : String, jsTrim o.data ≠ [] →
      fs (if isAbsolutePath o then o else pjoin root o) = true →
      detectBmadStructure fs root (some o) =
        { version := .quickflow,
          storiesPath := if isAbsolutePath o then o else pjoin root o }) ∧
    ((fs (pjoin (pjoin root ".bmad") "bmm") = true ∨
        fs (pjoin (pjoin root "_bmad") "bmm") = true) →
      fs (pjoin root ".bmad-core") = true →
      (detectBmadStructure fs root none).version = .v6) ∧
    (fs (pjoin (pjoin root ".bmad") "bmm") = false →
      fs (pjoin (pjoin root "_bmad") "bmm") = false →
      fs (pjoin (pjoin root "_bmad-output") "stories") = false →
      fs (pjoin root ".bmad-core") = false →
      fs (pjoin (pjoin root "docs") "stories") = false →
      fs (pjoin root "stories") = false →
      fs (pjoin (pjoin root "docs") "sprint-artifacts") = false →
      ∀ o : Option String,
        (∀ str, o = some str → jsTrim str.data = [] ∨
          fs (if isAbsolutePath str then str else pjoin root str) = false) →
        detectBmadStructure fs root o = { version := .unknown, storiesPath := "" }) := by
  refine ⟨?_, ?_, ?_⟩
  · intro o ht hfs
    simp only [detectBmadStructure]
    rw [if_pos ht, if_pos hfs]
  · intro hv6 _hcore
    rcases hv6 with h | h
    · simp only [detectBmadStructure, List.find?_cons_of_pos _ h]
    · cases hfa : fs (pjoin (pjoin root ".bmad") "bmm")
      · have hfind : List.find? fs
            [pjoin (pjoin root ".bmad") "bmm", pjoin (pjoin root "_bmad") "bmm"] =
              some (pjoin (pjoin root "_bmad") "bmm") := by
          rw [List.find?_cons_of_neg _ (by simp [hfa]), List.find?_cons_of_pos _ h]
        simp only [detectBmadStructure, hfind]
      · simp only [detectBmadStructure, List.find?_cons_of_pos _ hfa]
  · intro h1 h2 h3 h4 h5 h6 h7 o ho
    cases o with
    | none => simp [detectBmadStructure, h1, h2, h3, h4, h5, h6, h7, List.find?]
    | some str =>
      rcases ho str rfl with ht | hx
      · simp [detectBmadStructure, ht, h1, h2, h3, h4, h5, h6, h7, List.find?]
      · simp [detectBmadStructure, hx, h1, h2, h3, h4, h5, h6, h7, List.find?]

/-- A concrete filesystem for exercising `c7_detection_priority`: the
workspace root is `/ws` and exactly the listed paths exist. -/
def exFS (paths : List String) : String → Bool := fun p => paths.contains p

/-- C7 witness: an override that exists wins as quickflow; both marker
spellings plus the legacy marker give v6; a workspace holding only
unrelated files — and an override that does not resolve — gives unknown.
-/
theorem c7_detection_priority_witness :
    detectBmadStructure (exFS ["/ws/custom"]) "/ws" (some "custom") =
      { version := .quickflow, storiesPath := "/ws/custom" } ∧
    (detectBmadStructure (exFS ["/ws/.bmad/bmm", "/ws/_bmad/bmm", "/ws/.bmad-core"])
        "/ws" none).version = .v6 ∧
    detectBmadStructure (exFS ["/ws/readme.md", "/ws/src/index.ts"]) "/ws"
        (some "docs/stories") =
      { version := .unknown, storiesPath := "" } := by
  refine ⟨?_, ?_, ?_⟩
  · have h := (c7_detection_priority (exFS ["/ws/custom"]) "/ws").1 "custom"
      (by decide) (by decide)
    simpa using h
  · exact (c7_detection_priority (exFS ["/ws/.bmad/bmm", "/ws/_bmad/bmm", "/ws/.bmad-core"])
      "/ws").2.1 (Or.inl (by decide)) (by decide)
  · exact (c7_detection_priority (exFS ["/ws/readme.md", "/ws/src/index.ts"]) "/ws").2.2
      (by decide) (by decide) (by decide) (by decide) (by decide) (by decide) (by decide)
      (some "docs/stories")
      (by intro str hs; cases hs; exact Or.inr (by decide))

/-! ### Title extraction: `extractTitle`

The title line regex is `^title:\s*["']?(.+?)["']?\s*$` (a lazy capture with
optional quotes) and the heading regex is `^#\s+(.+)$`; both are modelled
with JavaScript's backtracking order (greedy `\s*`,`\s+` giving back
characters when the rest of the pattern cannot match, the optional quote
preferring to consume, the lazy capture growing from the shortest). -/

def isQuoteChar (c : Char) : Bool := c == '"' || c == '\''

/-- Does a remainder match `["']?\s*$` (greedy)? -/
def tailOK : List Char → Bool
  | [] => true
  | c :: rest => if isQuoteChar c then rest.all jsWhitespace else (c :: rest).all jsWhitespace

/-- The lazy capture `(.+?)`: shortest nonempty dot-prefix whose remainder
matches the pattern tail. -/
def lazyCaptureGo : List Char → List Char → Option (List Char)
  | [], _ => none
  | c :: rest, accRev =>
    if jsDot c then
      if tailOK rest then some ((c :: accRev).reverse)
      else lazyCaptureGo rest (c :: accRev)
    else none

/-- Backtracking `\s*` when nothing follows the whitespace run: the capture
becomes the whitespace character nearest the end that `.` can match. -/
def wsBacktrack : List Char → Option (List Char)
  | [] => none
  | w :: ws => if jsDot w then some [w] else wsBacktrack ws

/-- `\s*["']?(.+?)["']?\s*$` on what follows the `title:` literal. -/
def matchTitleTail (l : List Char) : Option (List Char) :=
  match l.dropWhile jsWhitespace with
  | [] => wsBacktrack (l.takeWhile jsWhitespace).reverse
  | c :: cs =>
    if isQuoteChar c then
      match lazyCaptureGo cs [] with
      | some t => some t
      | none => lazyCaptureGo (c :: cs) []
    else lazyCaptureGo (c :: cs) []

/-- Strip an expected literal from the head of a character list. -/
def stripLit : List Char → List Char → Option (List Char)
  | [], l => some l
  | _ :: _, [] => none
  | e :: es, c :: cs => if c == e then stripLit es cs else none

/-- `line.match(/^title:\s*["']?(.+?)["']?\s*$/)`, returning the capture. -/
def titleValue? (line : String) : Option String :=
  match stripLit "title:".data line.data with
  | some rest => (matchTitleTail rest).map String.mk
  | none => none

/-- `line.match(/^#\s+(.+)$/)`, returning the capture. -/
def headingValue? (line : String) : Option String :=
  match line.data with
  | '#' :: rest =>
    let w := rest.takeWhile jsWhitespace
    if w.isEmpty then none
    else
      match rest.dropWhile jsWhitespace with
      | [] =>
        match w.reverse with
        | [] => none
        | wLast :: wRest =>
          if wRest.isEmpty then none
          else if jsDot wLast then some (String.mk [wLast]) else none
      | c :: cs => if (c :: cs).all jsDot then some (String.mk (c :: cs)) else none
  | _ => none

/-- `line.trim() === '---'`. -/
def isDashesLine (line : String) : Bool := jsTrim line.data == "---".data

/-- The `extractTitle` scan: any `---` line toggles frontmatter mode; a
`title:` line is consulted only inside frontmatter mode, a heading line
only outside it; the fallback is the constant `'Untitled Story'`. -/
def extractTitleGo : List String → Bool → String
  | [], _ => "Untitled Story"
  | line :: rest, inFM =>
    if isDashesLine line then extractTitleGo rest (!inFM)
    else if inFM then
      match titleValue? line with
      | some t => t
      | none => extractTitleGo rest inFM
    else
      match headingValue? line with
      | some t => t
      | none => extractTitleGo rest inFM

def extractTitle (lines : List String) : String := extractTitleGo lines false

/-! #### The amended characterization -/

/-- The frontmatter flag in force at each line. -/
def fmFlags : List String → Bool → List Bool
  | [], _ => []
  | l :: ls, fm => fm :: fmFlags ls (if isDashesLine l then !fm else fm)

/-- What a single line contributes given its frontmatter flag. -/
def pickTitle (p : String × Bool) : Option String :=
  if isDashesLine p.1 then none
  else if p.2 then titleValue? p.1 else headingValue? p.1

/-- C9 amended, as a single scan over lines annotated with their
frontmatter flags. -/
def extractTitleSpec (lines : List String) : String :=
  match (lines.zip (fmFlags lines false)).findSome? pickTitle with
  | some t => t
  | none => "Untitled Story"

theorem extractTitleGo_eq (ls : List String) :
    ∀ fm : Bool, extractTitleGo ls fm =
      match (ls.zip (fmFlags ls fm)).findSome? pickTitle with
      | some t => t
      | none => "Untitled Story" := by
  induction ls with
  | nil => intro fm; rfl
  | cons l ls ih =>
    intro fm
    rw [fmFlags, List.zip_cons_cons, List.findSome?_cons, extractTitleGo]
    by_cases hd : isDashesLine l
    · rw [if_pos hd]
      have hp : pickTitle (l, fm) = none := by simp [pickTitle, hd]
      rw [hp, ih, if_pos hd]
    · rw [if_neg hd]
      by_cases hfm : fm = true
      · subst hfm
        have hp : pickTitle (l, true) = titleValue? l := by simp [pickTitle, hd]
        rw [if_pos rfl, hp, if_neg hd]
        cases titleValue? l with
        | some t => rfl
        | none => rw [ih]
      · have hfm' : fm = false := by revert hfm; cases fm <;> simp
        subst hfm'
        have hp : pickTitle (l, false) = headingValue? l := by simp [pickTitle, hd]
        rw [if_neg (by simp), hp, if_neg hd]
        cases headingValue? l with
        | some t => rfl
        | none => rw [ih]

/-- C9 amended. Title extraction order: the title is the value of the first
`title:` key found on a line inside a `---`-toggled region, where every
line whose trimmed text is `---` toggles the region whether or not the
block is leading; otherwise the text of the first level-1 heading outside
all such regions; otherwise the constant `'Untitled Story'` (the file's
base name is never used). -/
theorem c9_title_extraction (lines : List String) :
    extractTitle lines = extractTitleSpec lines := by
  rw [extractTitle, extractTitleSpec, extractTitleGo_eq]

/-- C9 counterexample: there is no leading frontmatter block here, so per
the claim the title should be the level-1 heading `Real Heading` (and with
neither a leading-block `title:` nor a heading, the claim demands the base
name); the source instead returns the `title:` value found inside the later
`---`-toggled region, and the constant `'Untitled Story'` for an empty
file. -/
theorem c9_title_extraction_counterexample :
    extractTitle ["intro", "---", "title: Sneaky", "---", "# Real Heading"] = "Sneaky" ∧
    extractTitle [] = "Untitled Story" ∧ "Sneaky" ≠ "Real Heading" := by
  refine ⟨by decide, rfl, by decide⟩

/-! ### The project state manager: `refresh` and `initialize`

Every parser below the refresh boundary catches its own failures, exactly
as in the source: `parseSprintStatus` wraps the file read and the YAML
parse in its own try/catch and returns null on any failure, and
`parseStoriesDirectory` logs and degrades on a directory read failure.
The outcome of the read-and-parse attempt inside `parseSprintStatus` is
modelled as an `Except`-valued input; the directory walk is abstracted as
the raw, file-derived epic and story data, to which the walk's per-entry
workflow-status assignment (status-map lookup defaulting to `'backlog'`)
is applied.  The source's try/catch at the refresh boundary remains, but
none of these modelled failure modes reaches it, so a refresh with a known
detection always completes and replaces the snapshot.  JavaScript numbers
holding differences are modelled as `Int`. -/

/-- The result of `parseSprintStatusContent`: status maps keyed by epic and
story identifier (plus the mined goals). -/
structure SprintStatus where
  project : String
  storyLocation : String
  epicStatuses : List (String × String)
  storyStatuses : List (String × String)
  epicGoals : List (String × String)
deriving Repr, DecidableEq

/-- `parseSprintStatus`: `try { read; return parseSprintStatusContent(text) }
catch { return null }` — a malformed or unreadable status document yields
null and never throws past this boundary. -/
def parseSprintStatus (outcome : Except String SprintStatus) : Option SprintStatus :=
  match outcome with
  | .ok sprintStatus => some sprintStatus
  | .error _ => none

def lookupStr (m : List (String × String)) (k : String) : Option String :=
  (m.find? (fun q => q.1 == k)).map (fun q => q.2)

/-- The directory walk's status assignment:
`sprintStatus?.storyStatuses.get(storyKey) || 'backlog'` per story and
`sprintStatus?.epicStatuses.get(epicId) || 'backlog'` per epic. -/
def applySprintStatus (sprintStatus : Option SprintStatus) (epics : List EpicData) :
    List EpicData :=
  epics.map (fun e =>
    { e with
      bmadStatus :=
        ((sprintStatus.bind (fun ss => lookupStr ss.epicStatuses e.id)).getD "backlog")
      stories := e.stories.map (fun st =>
        { st with
          bmadStatus :=
            ((sprintStatus.bind
              (fun ss => lookupStr ss.storyStatuses st.storyId)).getD "backlog") }) })

structure ProjectProgress where
  rootPath : String
  projectName : String
  version : BmadVersion
  epics : List EpicData
  currentStory : Option StoryData
  totalTasks : Nat
  completedTasks : Nat
  percentage : Nat
  sessionCompletedTasks : Int
  tasksSinceCommit : Int
deriving Repr, DecidableEq

structure BmadState where
  workspaceRoot : String
  projectName : String
  detection : Option DetectionResult
  progress : Option ProjectProgress
  sessionStartCompletedTasks : Nat
  gitIntegration : Bool
  gitAvailable : Bool
deriving Repr, DecidableEq

structure RefreshInputs where
  sprintStatusOutcome : Except String SprintStatus
  rawEpics : List EpicData
  storyGitFiles : List GitFile

/-- The body of `refresh`: parse the sprint status (which cannot throw),
apply its statuses to the walked stories, pick the current story, compute
the roll-ups, the git delta and the clamped session delta, and build the
new snapshot.  Total: no modelled step fails. -/
def doRefreshBody (st : BmadState) (d : DetectionResult) (inps : RefreshInputs) :
    ProjectProgress :=
  let sprintStatus := parseSprintStatus inps.sprintStatusOutcome
  let epics := applySprintStatus sprintStatus inps.rawEpics
  let currentStory := findCurrentStory epics
  let totalTasks : Nat := epics.foldl (fun sum e => sum + e.totalCount) 0
  let completedTasks : Nat := epics.foldl (fun sum e => sum + e.completedCount) 0
  let tasksSinceCommit : Int :=
    if st.gitIntegration && st.gitAvailable then getTasksSinceCommit inps.storyGitFiles else 0
  let sessionCompletedTasks : Int :=
    max 0 ((completedTasks : Int) - (st.sessionStartCompletedTasks : Int))
  { rootPath := st.workspaceRoot
    projectName := st.projectName
    version := d.version
    epics := epics
    currentStory := currentStory
    totalTasks := totalTasks
    completedTasks := completedTasks
    percentage := percentage completedTasks totalTasks
    sessionCompletedTasks := sessionCompletedTasks
    tasksSinceCommit := tasksSinceCommit }

/-- `refresh()`: a no-op without a known detection; otherwise the body runs
to completion and its snapshot replaces the previous one (the boundary
catch in the source has nothing to catch among the modelled failure
modes). -/
def refresh (st : BmadState) (inps : RefreshInputs) : BmadState :=
  match st.detection with
  | none => st
  | some d =>
    if d.version = BmadVersion.unknown then st
    else { st with progress := some (doRefreshBody st d inps) }

/-- `initialize()`: detect the structure, fail when unknown or without a
stories path, otherwise set git availability, run one refresh, and record
the session baseline from the just-computed snapshot. -/
def initializeProject (st : BmadState) (fs : String → Bool) (override : Option String)
    (gitAvail : Bool) (inps : RefreshInputs) : Bool × BmadState :=
  let d := detectBmadStructure fs st.workspaceRoot override
  if d.version = BmadVersion.unknown ∨ d.storiesPath = "" then
    (false, { st with detection := some d })
  else
    let st1 : BmadState :=
      { st with
        detection := some d
        gitAvailable := if st.gitIntegration then gitAvail else st.gitAvailable }
    let st2 := refresh st1 inps
    match st2.progress with
    | some p => (true, { st2 with sessionStartCompletedTasks := p.completedTasks })
    | none => (true, st2)

/-- Every story and epic of a snapshot built without an authoritative
status document carries the default `'backlog'` workflow status. -/
theorem applySprintStatus_none (raw : List EpicData) :
    ∀ e ∈ applySprintStatus none raw, e.bmadStatus = "backlog" ∧
      ∀ st ∈ e.stories, st.bmadStatus = "backlog" := by
  intro e he
  rw [applySprintStatus] at he
  obtain ⟨e0, _, rfl⟩ := List.mem_map.mp he
  refine ⟨rfl, ?_⟩
  intro st hst
  obtain ⟨s0, _, rfl⟩ := List.mem_map.mp hst
  rfl

/-- C8 amended. Refresh and a malformed status document: a refresh with a
known, non-unknown detection always completes and installs a brand-new
snapshot — every modelled failure mode, in particular a parse error in a
present-but-malformed status document, is caught below the refresh
boundary (`parseSprintStatus` returns null), so such a document does not
preserve the previous snapshot; instead the replacement snapshot's
workflow statuses are all defaulted to `'backlog'`. -/
theorem c8_refresh_snapshot_replacement (st : BmadState) (inps : RefreshInputs)
    (d : DetectionResult)
    (hdet : st.detection = some d) (hv : d.version ≠ BmadVersion.unknown) :
    refresh st inps = { st with progress := some (doRefreshBody st d inps) } ∧
    (∀ err, inps.sprintStatusOutcome = .error err →
      ∀ e ∈ (doRefreshBody st d inps).epics, e.bmadStatus = "backlog" ∧
        ∀ s ∈ e.stories, s.bmadStatus = "backlog") := by
  constructor
  · simp only [refresh, hdet]
    rw [if_neg hv]
  · intro err herr
    have hepics : (doRefreshBody st d inps).epics =
        applySprintStatus (parseSprintStatus inps.sprintStatusOutcome) inps.rawEpics := rfl
    rw [hepics, herr]
    exact applySprintStatus_none inps.rawEpics

def exDetection : DetectionResult :=
  { version := .v6, storiesPath := "/ws/docs/sprint-artifacts",
    configPath := some "/ws/.bmad/bmm/config.yaml", epicsPath := some "/ws/_bmad-output" }

def exProgress : ProjectProgress :=
  { rootPath := "/ws", projectName := "proj", version := .v6, epics := [],
    currentStory := none, totalTasks := 0, completedTasks := 0, percentage := 0,
    sessionCompletedTasks := 0, tasksSinceCommit := 0 }

def exState : BmadState :=
  { workspaceRoot := "/ws", projectName := "proj", detection := some exDetection,
    progress := some exProgress, sessionStartCompletedTasks := 5,
    gitIntegration := false, gitAvailable := false }

/-- An epic whose completed roll-up (2) is below the session baseline (5).
-/
def exEpicLow : EpicData :=
  { id := "1", stories := [], completedCount := 2, totalCount := 4,
    percentage := 50, bmadStatus := "in-progress" }

/-- Inputs whose sprint-status parse fails (a present-but-malformed status
document), over a workspace with one walked epic. -/
def exBadInputs : RefreshInputs :=
  { sprintStatusOutcome := .error "YAML parse error", rawEpics := [exEpicLow],
    storyGitFiles := [] }

/-- C8 counterexample: with a previous snapshot in place and a malformed
status document, refresh does not leave the previous snapshot in place —
it replaces it with a newly built one. -/
theorem c8_refresh_counterexample :
    (refresh exState exBadInputs).progress ≠ some exProgress ∧
    refresh exState exBadInputs ≠ exState := by
  refine ⟨by decide, by decide⟩

/-- C8 witness: the replacement at a concrete failing-status input, with
the defaulted statuses of the new snapshot. -/
theorem c8_refresh_snapshot_replacement_witness :
    refresh exState exBadInputs =
      { exState with progress := some (doRefreshBody exState exDetection exBadInputs) } ∧
    (∀ e ∈ (doRefreshBody exState exDetection exBadInputs).epics,
      e.bmadStatus = "backlog" ∧ ∀ s ∈ e.stories, s.bmadStatus = "backlog") :=
  have h := c8_refresh_snapshot_replacement exState exBadInputs exDetection rfl (by decide)
  ⟨h.1, h.2 "YAML parse error" rfl⟩

/-- C10. Session delta clamp: every snapshot a refresh body produces
carries `sessionCompletedTasks = max(0, completedTasks − session
baseline)`, hence never negative, even when tasks have been unchecked
since the baseline was recorded at initialization. -/
theorem c10_session_delta_clamp (st : BmadState) (inps : RefreshInputs)
    (d : DetectionResult) :
    (doRefreshBody st d inps).sessionCompletedTasks =
      max 0 (((doRefreshBody st d inps).completedTasks : Int) -
        (st.sessionStartCompletedTasks : Int)) ∧
    0 ≤ (doRefreshBody st d inps).sessionCompletedTasks := by
  exact ⟨rfl, le_max_left _ _⟩

def exOkInputs : RefreshInputs :=
  { sprintStatusOutcome := .ok ⟨"proj", "docs/stories", [], [], []⟩,
    rawEpics := [exEpicLow], storyGitFiles := [] }

/-- C10 witness: with baseline 5 and current completed count 2, the session
field clamps to 0 instead of going negative. -/
theorem c10_session_delta_clamp_witness :
    (doRefreshBody exState exDetection exOkInputs).sessionCompletedTasks =
      max 0 (((doRefreshBody exState exDetection exOkInputs).completedTasks : Int) -
        (exState.sessionStartCompletedTasks : Int)) ∧
    0 ≤ (doRefreshBody exState exDetection exOkInputs).sessionCompletedTasks ∧
    (doRefreshBody exState exDetection exOkInputs).sessionCompletedTasks = 0 :=
  have h := c10_session_delta_clamp exState exOkInputs exDetection
  ⟨h.1, h.2, by decide⟩

end BmadProgress
